import Mathlib

/-!
Verification of the core of `tilesettool` (src/tilesettool/src/tilesettool.c),
a Sega Megadrive/Genesis image tileset extractor.

The C functions are shallowly embedded as Lean functions over `List Nat`
(byte buffers, each byte a value below 256; bit operations `& 0x0F`,
`<< 4`, `|` on disjoint nibbles are rendered as `% 16`, `* 16`, `+`).
Machine pointers that may be NULL are rendered as `Option`, and each
`malloc` is given an explicit boolean oracle saying whether it succeeds.
-/

namespace Tilesettool

/-- Embedding of `image_to_4bpp` (tilesettool.c lines 138-163), success path.
Converts an 8bpp image data buffer to 4bpp: for each `i < size / 2` the
output byte is `((src[2i] & 0x0F) << 4) | (src[2i+1] & 0x0F)`, i.e.
`(src[2i] % 16) * 16 + src[2i+1] % 16`.  The C routine walks `src` two
bytes at a time writing `dest` sequentially; out-of-range reads (which in
C would be undefined) are given the value 0 by `getD`. -/
def image_to_4bpp (image : List Nat) (size : Nat) : List Nat :=
  (List.range (size / 2)).map fun i =>
    (image.getD (2 * i) 0 % 16) * 16 + image.getD (2 * i + 1) 0 % 16

/-- Embedding of `image_4bpp_to_tile` (tilesettool.c lines 173-226), success
path.  `tile_width = width / 8`, `tile_height = height / 8`,
`pitch = tile_width * 4`.  For each tile position `(tile_y, tile_x)` the
source origin is byte `(tile_y * 8) * pitch + tile_x * 4`; 8 rows of 4
contiguous bytes are copied, the source advancing by `pitch` between rows,
the output written sequentially.  The nested `flatMap`s mirror the nested
`for` loops writing `tiles_p` sequentially. -/
def image_4bpp_to_tile (image : List Nat) (width height : Nat) : List Nat :=
  (List.range (height / 8)).flatMap fun tile_y =>
    (List.range (width / 8)).flatMap fun tile_x =>
      (List.range 8).flatMap fun tile_row =>
        (List.range 4).map fun k =>
          image.getD
            (tile_y * 8 * (width / 8 * 4) + tile_x * 4 + tile_row * (width / 8 * 4) + k) 0

/-! ### Generic indexing lemmas for `flatMap` over `List.range` -/

/-- `getD` through `map` over `List.range`. -/
lemma getD_map_range {α : Type} (f : Nat → α) (n i : Nat) (d : α) (h : i < n) :
    ((List.range n).map f).getD i d = f i := by
  rw [List.getD_eq_getElem?_getD, List.getElem?_map, List.getElem?_range h]
  rfl

/-- Length of a `flatMap` over `List.range` whose blocks all have length `L`. -/
lemma length_flatMap_range {α : Type} (g : Nat → List α) (L n : Nat)
    (hL : ∀ k, (g k).length = L) :
    ((List.range n).flatMap g).length = n * L := by
  induction n with
  | zero => simp
  | succ m ih =>
      rw [List.range_succ, List.flatMap_append, List.length_append, ih]
      simp [hL, Nat.succ_mul]

/-- `getD` through a `flatMap` over `List.range` with constant block length:
block `i`, offset `j`. -/
lemma getD_flatMap_range {α : Type} (g : Nat → List α) (L n i j : Nat) (d : α)
    (hL : ∀ k, (g k).length = L) (hi : i < n) (hj : j < L) :
    ((List.range n).flatMap g).getD (i * L + j) d = (g i).getD j d := by
  induction n with
  | zero => omega
  | succ m ih =>
      rw [List.range_succ, List.flatMap_append]
      rcases Nat.lt_or_ge i m with h | h
      · rw [List.getD_append]
        · exact ih h
        · rw [length_flatMap_range g L m hL]
          calc i * L + j < i * L + L := by omega
            _ = (i + 1) * L := by ring
            _ ≤ m * L := Nat.mul_le_mul_right L (by omega)
      · have him : i = m := by omega
        subst him
        rw [List.getD_append_right]
        · rw [length_flatMap_range g L i hL]
          have : i * L + j - i * L = j := by omega
          rw [this]
          simp
        · rw [length_flatMap_range g L i hL]; omega

/-- Division form of `getD_flatMap_range`: any index `j < n * L` lands in
block `j / L` at offset `j % L`. -/
lemma getD_flatMap_range_div {α : Type} (g : Nat → List α) (L n j : Nat) (d : α)
    (hL : ∀ k, (g k).length = L) (hj : j < n * L) :
    ((List.range n).flatMap g).getD j d = (g (j / L)).getD (j % L) d := by
  have hL0 : 0 < L := by
    rcases Nat.eq_zero_or_pos L with h | h
    · subst h; omega
    · exact h
  have h1 : j / L < n := Nat.div_lt_of_lt_mul (by rw [Nat.mul_comm]; exact hj)
  have h2 : j % L < L := Nat.mod_lt _ hL0
  have h := getD_flatMap_range g L n (j / L) (j % L) d hL h1 h2
  rwa [Nat.div_add_mod'] at h

/-! ### Length and indexing facts about the tile extractor -/

lemma image_4bpp_to_tile_length (image : List Nat) (width height : Nat) :
    (image_4bpp_to_tile image width height).length = height / 8 * (width / 8 * 32) := by
  unfold image_4bpp_to_tile
  refine length_flatMap_range _ (width / 8 * 32) (height / 8) fun ty => ?_
  refine length_flatMap_range _ 32 (width / 8) fun tx => ?_
  refine (length_flatMap_range _ 4 8 fun r => ?_).trans (by norm_num)
  simp

/-- Every byte of the extractor output, by its flat index `j`: it comes from
source byte `ty*8*pitch + tx*4 + r*pitch + c` where `ty = j / (tw*32)`,
`tx = j % (tw*32) / 32`, `r = j % 32 / 4`, `c = j % 4`, `tw = width / 8`,
`pitch = tw * 4`. -/
lemma image_4bpp_to_tile_getD_div (image : List Nat) (width height j : Nat)
    (hj : j < height / 8 * (width / 8 * 32)) :
    (image_4bpp_to_tile image width height).getD j 0 =
      image.getD (j / (width / 8 * 32) * 8 * (width / 8 * 4)
        + j % (width / 8 * 32) / 32 * 4
        + j % 32 / 4 * (width / 8 * 4)
        + j % 4) 0 := by
  have htw0 : 0 < width / 8 * 32 := by
    rcases Nat.eq_zero_or_pos (width / 8 * 32) with h | h
    · rw [h, Nat.mul_zero] at hj; omega
    · exact h
  unfold image_4bpp_to_tile
  rw [getD_flatMap_range_div _ (width / 8 * 32) (height / 8) j 0
    (fun ty => length_flatMap_range _ 32 (width / 8) fun tx =>
      (length_flatMap_range _ 4 8 fun r => by simp).trans (by norm_num)) hj]
  rw [getD_flatMap_range_div _ 32 (width / 8) (j % (width / 8 * 32)) 0
    (fun tx => (length_flatMap_range _ 4 8 fun r => by simp).trans (by norm_num))
    (Nat.mod_lt _ htw0)]
  rw [Nat.mod_mod_of_dvd j ⟨width / 8, by ring⟩]
  rw [getD_flatMap_range_div _ 4 8 (j % 32) 0 (fun r => by simp)
    (by have := Nat.mod_lt j (y := 32) (by norm_num); omega)]
  rw [Nat.mod_mod_of_dvd j (by norm_num : (4 : ℕ) ∣ 32)]
  rw [getD_map_range _ 4 (j % 4) 0 (Nat.mod_lt _ (by norm_num))]

/-- Modelled from the spec (round-trip property, §8): the inverse of the Tile
Extractor, reassembling a TileBuffer back into raster 4bpp order.  Raster
byte `k` — pixel row `y = k / pitch`, byte `x = k % pitch` within the row,
`pitch = width / 8 * 4` — is taken from tile `(y / 8) * (width / 8) + x / 4`,
tile row `y % 8`, byte `x % 4` of the tile buffer.  This function is not in
the C source; it is the mathematical inverse the spec's round-trip property
quantifies over. -/
def tile_to_image_4bpp (tiles : List Nat) (width height : Nat) : List Nat :=
  (List.range height).flatMap fun y =>
    (List.range (width / 8 * 4)).map fun x =>
      tiles.getD ((y / 8 * (width / 8) + x / 4) * 32 + y % 8 * 4 + x % 4) 0

lemma tile_to_image_4bpp_getD (tiles : List Nat) (width height k : Nat)
    (hk : k < height * (width / 8 * 4)) :
    (tile_to_image_4bpp tiles width height).getD k 0 =
      tiles.getD ((k / (width / 8 * 4) / 8 * (width / 8) + k % (width / 8 * 4) / 4) * 32
        + k / (width / 8 * 4) % 8 * 4 + k % 4) 0 := by
  have hp : 0 < width / 8 * 4 := by
    rcases Nat.eq_zero_or_pos (width / 8 * 4) with h | h
    · rw [h, Nat.mul_zero] at hk; omega
    · exact h
  unfold tile_to_image_4bpp
  rw [getD_flatMap_range_div _ (width / 8 * 4) height k 0 (fun y => by simp) hk]
  rw [getD_map_range _ _ (k % (width / 8 * 4)) 0 (Nat.mod_lt _ hp)]
  rw [Nat.mod_mod_of_dvd k ⟨width / 8, by ring⟩]

/-- C1: for a 4bpp image whose width and height are multiples of 8, the Tile
Extractor returns a buffer of exactly `(width/8)*(height/8)*32` bytes in
which, with `tw = width/8` and `pitch = tw*4`, the tile at tile-row `ty`
and tile-column `tx` (tiles in raster tile order) occupies the contiguous
32-byte run starting at `(ty*tw + tx)*32`, and byte `c` of its row `r`
equals input byte `(ty*8)*pitch + tx*4 + r*pitch + c`. -/
theorem extractor_tile_layout (image : List Nat) (width height ty tx r c : Nat)
    (hw : 8 ∣ width) (hh : 8 ∣ height) (hlen : image.length = width / 2 * height)
    (hty : ty < height / 8) (htx : tx < width / 8) (hr : r < 8) (hc : c < 4) :
    (image_4bpp_to_tile image width height).length = width / 8 * (height / 8) * 32 ∧
    (image_4bpp_to_tile image width height).getD
        ((ty * (width / 8) + tx) * 32 + r * 4 + c) 0 =
      image.getD (ty * 8 * (width / 8 * 4) + tx * 4 + r * (width / 8 * 4) + c) 0 := by
  constructor
  · rw [image_4bpp_to_tile_length]; ring
  · have htw0 : 0 < width / 8 * 32 := by omega
    have e0 : (ty * (width / 8) + tx) * 32 + r * 4 + c
        = width / 8 * 32 * ty + (tx * 32 + (r * 4 + c)) := by ring
    have hbc : tx * 32 + (r * 4 + c) < width / 8 * 32 := by omega
    have hI : (ty * (width / 8) + tx) * 32 + r * 4 + c
        < height / 8 * (width / 8 * 32) := by
      rw [e0]
      calc width / 8 * 32 * ty + (tx * 32 + (r * 4 + c))
          < width / 8 * 32 * ty + width / 8 * 32 := by omega
        _ = width / 8 * 32 * (ty + 1) := by ring
        _ ≤ width / 8 * 32 * (height / 8) := Nat.mul_le_mul_left _ (by omega)
        _ = height / 8 * (width / 8 * 32) := by ring
    rw [image_4bpp_to_tile_getD_div image width height _ hI]
    have c1 : ((ty * (width / 8) + tx) * 32 + r * 4 + c) / (width / 8 * 32) = ty := by
      rw [e0, Nat.mul_add_div htw0, Nat.div_eq_of_lt hbc, Nat.add_zero]
    have c2 : ((ty * (width / 8) + tx) * 32 + r * 4 + c) % (width / 8 * 32)
        = tx * 32 + (r * 4 + c) := by
      rw [e0, Nat.mul_add_mod, Nat.mod_eq_of_lt hbc]
    have c3 : ((ty * (width / 8) + tx) * 32 + r * 4 + c) % (width / 8 * 32) / 32 = tx := by
      rw [c2]; omega
    have c4 : ((ty * (width / 8) + tx) * 32 + r * 4 + c) % 32 = r * 4 + c := by
      have e1 : (ty * (width / 8) + tx) * 32 + r * 4 + c
          = 32 * (ty * (width / 8) + tx) + (r * 4 + c) := by ring
      rw [e1, Nat.mul_add_mod]; omega
    have c5 : ((ty * (width / 8) + tx) * 32 + r * 4 + c) % 32 / 4 = r := by
      rw [c4]; omega
    have c6 : ((ty * (width / 8) + tx) * 32 + r * 4 + c) % 4 = c := by
      have e1 : (ty * (width / 8) + tx) * 32 + r * 4 + c
          = 4 * ((ty * (width / 8) + tx) * 8 + r) + c := by ring
      rw [e1, Nat.mul_add_mod]; omega
    rw [c1, c3, c5, c6]

/-- Witness for C1 at a concrete 16×8 image, tile (0,1), row 2, byte 3. -/
theorem extractor_tile_layout_witness :
    (8 ∣ 16) ∧ (8 ∣ 8) ∧ (List.range 64).length = 16 / 2 * 8 ∧
    (image_4bpp_to_tile (List.range 64) 16 8).length = 16 / 8 * (8 / 8) * 32 ∧
    (image_4bpp_to_tile (List.range 64) 16 8).getD
        ((0 * (16 / 8) + 1) * 32 + 2 * 4 + 3) 0 =
      (List.range 64).getD (0 * 8 * (16 / 8 * 4) + 1 * 4 + 2 * (16 / 8 * 4) + 3) 0 := by
  refine ⟨by norm_num, by norm_num, by simp, ?_⟩
  have h := extractor_tile_layout (List.range 64) 16 8 0 1 2 3
    (by norm_num) (by norm_num) (by simp) (by norm_num) (by norm_num)
    (by norm_num) (by norm_num)
  exact h

lemma tile_to_image_4bpp_length (tiles : List Nat) (width height : Nat) :
    (tile_to_image_4bpp tiles width height).length = height * (width / 8 * 4) := by
  unfold tile_to_image_4bpp
  refine length_flatMap_range _ (width / 8 * 4) height fun y => ?_
  simp

/-- C5: extraction is the inverse of reassembly — rebuilding raster order
from a TileBuffer (`tile_to_image_4bpp`) and re-extracting with
`image_4bpp_to_tile` yields the original TileBuffer; the extraction is a
bijective reordering of the input bytes. -/
theorem extractor_roundtrip (tiles : List Nat) (width height : Nat)
    (hw : 8 ∣ width) (hh : 8 ∣ height)
    (hlen : tiles.length = width / 8 * (height / 8) * 32) :
    image_4bpp_to_tile (tile_to_image_4bpp tiles width height) width height = tiles := by
  apply List.ext_getElem
  · rw [image_4bpp_to_tile_length, hlen]; ring
  · intro j h1 h2
    have hj : j < height / 8 * (width / 8 * 32) := by
      rw [image_4bpp_to_tile_length] at h1; exact h1
    have htw0 : 0 < width / 8 * 32 := by
      rcases Nat.eq_zero_or_pos (width / 8 * 32) with h | h
      · rw [h, Nat.mul_zero] at hj; omega
      · exact h
    rw [← List.getD_eq_getElem
        (image_4bpp_to_tile (tile_to_image_4bpp tiles width height) width height) 0 h1,
      ← List.getD_eq_getElem tiles 0 h2]
    rw [image_4bpp_to_tile_getD_div _ width height j hj]
    have hty : j / (width / 8 * 32) < height / 8 :=
      Nat.div_lt_of_lt_mul (by rw [Nat.mul_comm]; exact hj)
    have htx : j % (width / 8 * 32) / 32 < width / 8 := by
      have h := Nat.mod_lt j htw0
      exact Nat.div_lt_of_lt_mul (by omega)
    -- the source index, regrouped as row * pitch + byte-in-row
    have e0 : j / (width / 8 * 32) * 8 * (width / 8 * 4)
          + j % (width / 8 * 32) / 32 * 4
          + j % 32 / 4 * (width / 8 * 4)
          + j % 4
        = (j / (width / 8 * 32) * 8 + j % 32 / 4) * (width / 8 * 4)
          + (j % (width / 8 * 32) / 32 * 4 + j % 4) := by ring
    rw [e0]
    have hB : j % (width / 8 * 32) / 32 * 4 + j % 4 < width / 8 * 4 := by omega
    have hA : j / (width / 8 * 32) * 8 + j % 32 / 4 < height := by
      have h8 : height / 8 * 8 ≤ height := Nat.div_mul_le_self height 8
      omega
    have hs : (j / (width / 8 * 32) * 8 + j % 32 / 4) * (width / 8 * 4)
          + (j % (width / 8 * 32) / 32 * 4 + j % 4)
        < height * (width / 8 * 4) := by
      calc (j / (width / 8 * 32) * 8 + j % 32 / 4) * (width / 8 * 4)
            + (j % (width / 8 * 32) / 32 * 4 + j % 4)
          < (j / (width / 8 * 32) * 8 + j % 32 / 4) * (width / 8 * 4)
            + width / 8 * 4 := by omega
        _ = (j / (width / 8 * 32) * 8 + j % 32 / 4 + 1) * (width / 8 * 4) := by ring
        _ ≤ height * (width / 8 * 4) := Nat.mul_le_mul_right _ (by omega)
    rw [tile_to_image_4bpp_getD tiles width height _ hs]
    have hp : 0 < width / 8 * 4 := by omega
    have eD : ((j / (width / 8 * 32) * 8 + j % 32 / 4) * (width / 8 * 4)
          + (j % (width / 8 * 32) / 32 * 4 + j % 4)) / (width / 8 * 4)
        = j / (width / 8 * 32) * 8 + j % 32 / 4 := by
      rw [Nat.mul_comm (j / (width / 8 * 32) * 8 + j % 32 / 4),
        Nat.mul_add_div hp, Nat.div_eq_of_lt hB, Nat.add_zero]
    have eM : ((j / (width / 8 * 32) * 8 + j % 32 / 4) * (width / 8 * 4)
          + (j % (width / 8 * 32) / 32 * 4 + j % 4)) % (width / 8 * 4)
        = j % (width / 8 * 32) / 32 * 4 + j % 4 := by
      rw [Nat.mul_comm (j / (width / 8 * 32) * 8 + j % 32 / 4),
        Nat.mul_add_mod, Nat.mod_eq_of_lt hB]
    have eM4 : ((j / (width / 8 * 32) * 8 + j % 32 / 4) * (width / 8 * 4)
          + (j % (width / 8 * 32) / 32 * 4 + j % 4)) % 4 = j % 4 := by
      have e1 : (j / (width / 8 * 32) * 8 + j % 32 / 4) * (width / 8 * 4)
            + (j % (width / 8 * 32) / 32 * 4 + j % 4)
          = 4 * ((j / (width / 8 * 32) * 8 + j % 32 / 4) * (width / 8)
            + j % (width / 8 * 32) / 32) + j % 4 := by ring
      rw [e1, Nat.mul_add_mod]; omega
    rw [eD, eM, eM4]
    have eDiv8 : (j / (width / 8 * 32) * 8 + j % 32 / 4) / 8 = j / (width / 8 * 32) := by
      omega
    have eMod8 : (j / (width / 8 * 32) * 8 + j % 32 / 4) % 8 = j % 32 / 4 := by
      omega
    have eB4 : (j % (width / 8 * 32) / 32 * 4 + j % 4) / 4
        = j % (width / 8 * 32) / 32 := by omega
    rw [eDiv8, eMod8, eB4]
    -- the recomposed tile-buffer index is j itself
    have d1 : width / 8 * 32 * (j / (width / 8 * 32)) + j % (width / 8 * 32) = j :=
      Nat.div_add_mod j (width / 8 * 32)
    have d3 : j % (width / 8 * 32) % 32 = j % 32 :=
      Nat.mod_mod_of_dvd j ⟨width / 8, by ring⟩
    have d2 : 32 * (j % (width / 8 * 32) / 32) + j % 32 = j % (width / 8 * 32) := by
      have h := Nat.div_add_mod (j % (width / 8 * 32)) 32
      rw [d3] at h; exact h
    have dW : 4 * (j % 32 / 4) + j % 4 = j % 32 := by omega
    have efin : (j / (width / 8 * 32) * (width / 8) + j % (width / 8 * 32) / 32) * 32
          + j % 32 / 4 * 4 + j % 4 = j := by
      calc (j / (width / 8 * 32) * (width / 8) + j % (width / 8 * 32) / 32) * 32
            + j % 32 / 4 * 4 + j % 4
          = width / 8 * 32 * (j / (width / 8 * 32))
            + (32 * (j % (width / 8 * 32) / 32) + (4 * (j % 32 / 4) + j % 4)) := by ring
        _ = width / 8 * 32 * (j / (width / 8 * 32))
            + (32 * (j % (width / 8 * 32) / 32) + j % 32) := by rw [dW]
        _ = width / 8 * 32 * (j / (width / 8 * 32)) + j % (width / 8 * 32) := by rw [d2]
        _ = j := d1
    rw [efin]

/-- Witness for C5 on a concrete two-tile 16×8 buffer. -/
theorem extractor_roundtrip_witness :
    (8 ∣ 16) ∧ (8 ∣ 8) ∧ (List.range 64).length = 16 / 8 * (8 / 8) * 32 ∧
    image_4bpp_to_tile (tile_to_image_4bpp (List.range 64) 16 8) 16 8 = List.range 64 :=
  ⟨by norm_num, by norm_num, by simp,
    extractor_roundtrip (List.range 64) 16 8 (by norm_num) (by norm_num) (by simp)⟩

/-- C3: for an even-length input, Depth Normalizer output byte `i` is
`((src[2i] & 0x0F) << 4) | (src[2i+1] & 0x0F)`, and only the low nibble of
each source byte affects the output. -/
theorem depth_normalizer_pairs (image : List Nat) (N i : Nat)
    (hlen : image.length = N) (heven : 2 ∣ N) (hi : i < N / 2) :
    (image_to_4bpp image N).length = N / 2 ∧
    (image_to_4bpp image N).getD i 0
      = (image.getD (2 * i) 0 % 16) * 16 + image.getD (2 * i + 1) 0 % 16 ∧
    (∀ image' : List Nat,
      (∀ k, image'.getD k 0 % 16 = image.getD k 0 % 16) →
      image_to_4bpp image' N = image_to_4bpp image N) := by
  refine ⟨by simp [image_to_4bpp], ?_, ?_⟩
  · exact getD_map_range _ (N / 2) i 0 hi
  · intro image' hnib
    unfold image_to_4bpp
    apply List.map_congr_left
    intro a _
    rw [hnib (2 * a), hnib (2 * a + 1)]

/-- Witness for C3 on the 4-byte buffer `[0x12, 0xFF, 0xA0, 0x03]`, index 1. -/
theorem depth_normalizer_pairs_witness :
    ([18, 255, 160, 3] : List Nat).length = 4 ∧ (2 ∣ 4) ∧ 1 < 4 / 2 ∧
    (image_to_4bpp [18, 255, 160, 3] 4).getD 1 0
      = (([18, 255, 160, 3] : List Nat).getD 2 0 % 16) * 16
        + ([18, 255, 160, 3] : List Nat).getD 3 0 % 16 :=
  ⟨by decide, by decide, by decide,
    (depth_normalizer_pairs [18, 255, 160, 3] 4 1 (by decide) (by decide) (by decide)).2.1⟩

/-! ### Embedding of `tileset_read` (validation, normalization, record) -/

/-- lodepng color type constant for palette (indexed) images. -/
def LCT_PALETTE : Nat := 3

/-- The fields of `LodePNGColorMode` that `tileset_read` inspects. -/
structure LodePNGColorMode where
  colortype : Nat
  bitdepth : Nat
  palettesize : Nat
deriving DecidableEq

/-- A decoded image as handed to the validation part of `tileset_read` by
the external lodepng decoder. -/
structure DecodedImage where
  color : LodePNGColorMode
  width : Nat
  height : Nat
  data : List Nat
deriving DecidableEq

/-- Diagnostic printed at tilesettool.c line 367. -/
def msg_not_indexed : String :=
  "Skiping file: The image must be in indexed color mode"

/-- Diagnostic printed at line 375 (the format string, kept verbatim). -/
def msg_bad_bpp : String :=
  "Skiping file: %d bpp not suported. Only 4bpp and 8bpp png files supported"

/-- Diagnostic printed at line 382. -/
def msg_too_many_colors : String :=
  "Skiping file: More than 16 colors png image detected."

/-- Diagnostic printed at line 389. -/
def msg_bad_width : String :=
  "Skiping file: Image width is not multiple of 8."

/-- Diagnostic printed at line 396. -/
def msg_bad_height : String :=
  "Skiping file: Image height is not multiple of 8."

/-- Diagnostic printed at line 408 (source text: Error: Can not conver image
to 4bpp, rendered without the contraction). -/
def msg_alloc_4bpp : String :=
  "Error: Cant conver image to 4bpp."

/-- Index of the last occurrence of `c` in `cs`: the C `strrchr`. -/
def strrchr_idx : List Char → Char → Option Nat
  | [], _ => none
  | a :: cs, c =>
    match strrchr_idx cs c with
    | some i => some (i + 1)
    | none => if a = c then some 0 else none

/-- Name derivation in `tileset_read` (lines 427-433): the file name is
copied and, when `strrchr(name, '.')` finds a dot, truncated there. -/
def name_without_ext (cs : List Char) : List Char :=
  match strrchr_idx cs '.' with
  | none => cs
  | some i => cs.take i

/-- `name_without_ext` on `String`. -/
def name_without_ext_s (s : String) : String := ⟨name_without_ext s.data⟩

/-- The fields of `tileset_t` that `tileset_read` fills in (lines 102-109;
`size_define` is only written by the output stage).  `data` is an `Option`
because line 418 stores the raw `image_4bpp_to_tile` result, which is NULL
when its `malloc` failed. -/
structure tileset_t where
  file : String
  name : String
  size : Nat
  data : Option (List Nat)
deriving DecidableEq

/-- Embedding of `tileset_read` (lines 318-436) from the point where the
external png load and decode succeeded: the five validation checks in
source order, depth normalization for 8bpp images — the size argument
`img.width * img.width` faithfully mirrors line 403 of the source — then
tile extraction and record construction.  Returns the C return value
(0 ok, nonzero error), the record written to `tilesets[tileset_index]`
(if any), and the diagnostics printed.  `alloc_4bpp` and `alloc_tiles` are
oracles for the success of the two `malloc` calls; NULL results are `none`.
Note the source does not check the result of `image_4bpp_to_tile`: a NULL
tile buffer still yields return value 0 and a stored record. -/
def tileset_read (file : String) (img : DecodedImage)
    (alloc_4bpp alloc_tiles : Bool) : Nat × Option tileset_t × List String :=
  if img.color.colortype ≠ LCT_PALETTE then
    (1, none, [msg_not_indexed])
  else if img.color.bitdepth ≠ 4 ∧ img.color.bitdepth ≠ 8 then
    (1, none, [msg_bad_bpp])
  else if img.color.palettesize > 16 then
    (1, none, [msg_too_many_colors])
  else if img.width % 8 ≠ 0 then
    (1, none, [msg_bad_width])
  else if img.height % 8 ≠ 0 then
    (1, none, [msg_bad_height])
  else
    let image_4bpp : Option (List Nat) :=
      if img.color.bitdepth = 8 then
        if alloc_4bpp then some (image_to_4bpp img.data (img.width * img.width))
        else none
      else some img.data
    match image_4bpp with
    | none => (1, none, [msg_alloc_4bpp])
    | some buf =>
      (0, some
        { file := file
          name := name_without_ext_s file
          size := img.width / 8 * (img.height / 8)
          data :=
            if alloc_tiles then some (image_4bpp_to_tile buf img.width img.height)
            else none },
        [])

/-- C4: the validator checks run in the fixed order color mode, bit depth
(exactly 4 or 8), palette size (≤ 16), width divisibility by 8, height
divisibility by 8; the first failing check alone is reported, with a single
distinct diagnostic; in particular a non-indexed and mis-dimensioned image
is reported as non-indexed. -/
theorem validator_first_failure :
    (∀ (file : String) (img : DecodedImage) (a b : Bool),
      img.color.colortype ≠ LCT_PALETTE →
      tileset_read file img a b = (1, none, [msg_not_indexed])) ∧
    (∀ (file : String) (img : DecodedImage) (a b : Bool),
      img.color.colortype = LCT_PALETTE →
      img.color.bitdepth ≠ 4 → img.color.bitdepth ≠ 8 →
      tileset_read file img a b = (1, none, [msg_bad_bpp])) ∧
    (∀ (file : String) (img : DecodedImage) (a b : Bool),
      img.color.colortype = LCT_PALETTE →
      (img.color.bitdepth = 4 ∨ img.color.bitdepth = 8) →
      img.color.palettesize > 16 →
      tileset_read file img a b = (1, none, [msg_too_many_colors])) ∧
    (∀ (file : String) (img : DecodedImage) (a b : Bool),
      img.color.colortype = LCT_PALETTE →
      (img.color.bitdepth = 4 ∨ img.color.bitdepth = 8) →
      img.color.palettesize ≤ 16 → img.width % 8 ≠ 0 →
      tileset_read file img a b = (1, none, [msg_bad_width])) ∧
    (∀ (file : String) (img : DecodedImage) (a b : Bool),
      img.color.colortype = LCT_PALETTE →
      (img.color.bitdepth = 4 ∨ img.color.bitdepth = 8) →
      img.color.palettesize ≤ 16 → img.width % 8 = 0 → img.height % 8 ≠ 0 →
      tileset_read file img a b = (1, none, [msg_bad_height])) ∧
    [msg_not_indexed, msg_bad_bpp, msg_too_many_colors, msg_bad_width,
      msg_bad_height].Nodup := by
  refine ⟨?_, ?_, ?_, ?_, ?_, by decide⟩
  · intro file img a b h
    simp [tileset_read, h]
  · intro file img a b hct h4 h8
    simp [tileset_read, hct, h4, h8]
  · intro file img a b hct hd hpal
    rcases hd with h | h <;> simp [tileset_read, hct, h, hpal]
  · intro file img a b hct hd hpal hwidth
    rcases hd with h | h <;> simp [tileset_read, hct, h, hpal, hwidth, Nat.not_lt.mpr hpal]
  · intro file img a b hct hd hpal hwidth hheight
    rcases hd with h | h <;>
      simp [tileset_read, hct, h, hpal, hwidth, hheight, Nat.not_lt.mpr hpal]

/-- Witness for C4: an image that is both non-indexed (colortype 0) and
mis-dimensioned (width 65) is reported as non-indexed. -/
theorem validator_first_failure_witness :
    (0 ≠ LCT_PALETTE) ∧
    tileset_read "a.png" ⟨⟨0, 8, 4⟩, 65, 64, []⟩ true true
      = (1, none, [msg_not_indexed]) :=
  ⟨by decide, validator_first_failure.1 "a.png" ⟨⟨0, 8, 4⟩, 65, 64, []⟩ true true
    (by decide)⟩

set_option maxRecDepth 16000 in
/-- C2 is false of the code: for an accepted 8bpp image the pipeline invokes
the Depth Normalizer with `width * width` bytes (line 403), not
`width * height`.  On a 16×8 image the normalizer is called with 256 and
produces a 128-byte buffer, where the claim requires `16*8/2 = 64` bytes. -/
theorem normalizer_called_with_width_squared :
    tileset_read "t.png" ⟨⟨LCT_PALETTE, 8, 16⟩, 16, 8, List.replicate 128 1⟩ true true
      = (0, some ⟨"t.png", "t", 2,
          some (image_4bpp_to_tile
            (image_to_4bpp (List.replicate 128 1) (16 * 16)) 16 8)⟩, []) ∧
    (image_to_4bpp (List.replicate 128 1) (16 * 16)).length = 128 ∧
    (image_to_4bpp (List.replicate 128 1) (16 * 8)).length = 64 ∧
    16 * 8 / 2 = 64 := by
  refine ⟨by decide, by decide, by decide, by decide⟩

/-- C6 counterexample: the extractor output for the all-zero 16×8 4bpp image
has 64 bytes, not 32 as the claim states. -/
theorem tile16x8_not_32_bytes :
    ¬ (image_4bpp_to_tile (List.replicate 64 0) 16 8).length = 32 := by decide

/-- C6 amended: the all-zero 16×8 4bpp image extracts to a 64-byte all-zero
buffer and the recorded tileset size in tiles is 2. -/
theorem tile16x8_all_zero :
    image_4bpp_to_tile (List.replicate 64 0) 16 8 = List.replicate 64 0 ∧
    (image_4bpp_to_tile (List.replicate 64 0) 16 8).length = 64 ∧
    tileset_read "zero.png" ⟨⟨LCT_PALETTE, 4, 4⟩, 16, 8, List.replicate 64 0⟩ true true
      = (0, some ⟨"zero.png", "zero", 2, some (List.replicate 64 0)⟩, []) := by
  refine ⟨by decide, by decide, by decide⟩

/-- C8: a Depth Normalizer allocation failure skips the image (return 1, no
record) with a diagnostic distinct from every validation message; but a
Tile Extractor allocation failure is NOT checked by the source (line 418):
`tileset_read` still returns 0 and stores a record whose `data` is NULL, so
the image is not skipped. -/
theorem alloc_failure_behavior :
    tileset_read "t.png" ⟨⟨LCT_PALETTE, 8, 16⟩, 16, 8, List.replicate 128 1⟩ false true
      = (1, none, [msg_alloc_4bpp]) ∧
    msg_alloc_4bpp ≠ msg_not_indexed ∧ msg_alloc_4bpp ≠ msg_bad_bpp ∧
    msg_alloc_4bpp ≠ msg_too_many_colors ∧ msg_alloc_4bpp ≠ msg_bad_width ∧
    msg_alloc_4bpp ≠ msg_bad_height ∧
    tileset_read "t.png" ⟨⟨LCT_PALETTE, 4, 4⟩, 16, 8, List.replicate 64 0⟩ true false
      = (0, some ⟨"t.png", "t", 2, none⟩, []) := by
  refine ⟨by decide, by decide, by decide, by decide, by decide, by decide, by decide⟩

lemma strrchr_idx_eq_none (cs : List Char) (c : Char) (h : c ∉ cs) :
    strrchr_idx cs c = none := by
  induction cs with
  | nil => rfl
  | cons a cs ih =>
    rw [List.mem_cons, not_or] at h
    simp [strrchr_idx, ih h.2, Ne.symm h.1]

lemma strrchr_idx_append_last (xs ys : List Char) (h : '.' ∉ ys) :
    strrchr_idx (xs ++ '.' :: ys) '.' = some xs.length := by
  induction xs with
  | nil => simp [strrchr_idx, strrchr_idx_eq_none ys '.' h]
  | cons a xs ih => simp [strrchr_idx, ih]

/-- C9: the derived tileset base name truncates the file name at the last
dot only — everything before the last dot is kept, and a name with no dot
is used unchanged. -/
theorem name_strips_last_extension :
    (∀ xs ys : List Char, '.' ∉ ys →
      name_without_ext (xs ++ '.' :: ys) = xs) ∧
    (∀ cs : List Char, '.' ∉ cs → name_without_ext cs = cs) ∧
    name_without_ext_s "a.b.png" = "a.b" ∧
    name_without_ext_s "noext" = "noext" := by
  refine ⟨?_, ?_, by decide, by decide⟩
  · intro xs ys h
    rw [name_without_ext, strrchr_idx_append_last xs ys h]
    exact List.take_left xs ('.' :: ys)
  · intro cs h
    rw [name_without_ext, strrchr_idx_eq_none cs '.' h]

/-- Witness for C9 at the name `a.png`. -/
theorem name_strips_last_extension_witness :
    ('.' ∉ ['p', 'n', 'g']) ∧
    name_without_ext (['a'] ++ '.' :: ['p', 'n', 'g']) = ['a'] :=
  ⟨by decide, name_strips_last_extension.1 ['a'] ['p', 'n', 'g'] (by decide)⟩

/-! ### Embedding of the directory-scan loop of `main` -/

/-- Catalog capacity (tilesettool.c line 63). -/
def MAX_TILESETS : Nat := 512

/-- What the scan loop observes of a directory entry: whether
`d_type == DT_REG`, and whether `tileset_read` on it returns 0. -/
structure dirent_t where
  d_type_reg : Bool
  read_ok : Bool
deriving DecidableEq

/-- Capacity diagnostic printed at line 636. -/
def msg_max_files : String :=
  "Error: More than 512 files in the source directory"

/-- Embedding of the `readdir` loop of `main` (lines 630-650): for each
entry, first the capacity check (abort the run when `tileset_index` has
reached `MAX_TILESETS`), then the regular-file test, then `tileset_read`,
incrementing `tileset_index` only on success. -/
def main_loop : List dirent_t → Nat → Except String Nat
  | [], tileset_index => .ok tileset_index
  | e :: rest, tileset_index =>
    if tileset_index ≥ MAX_TILESETS then .error msg_max_files
    else if e.d_type_reg then
      if e.read_ok then main_loop rest (tileset_index + 1)
      else main_loop rest tileset_index
    else main_loop rest tileset_index

/-- Embedding of the tail of `main` (lines 651-710) for the directory case:
exit status, and whether the output files are built
(`build_header_file` / `build_source_file` run only after the scan
completed and only when at least one tileset was read). -/
def main_run (entries : List dirent_t) : Nat × Bool :=
  match main_loop entries 0 with
  | .error _ => (1, false)
  | .ok n => (0, decide (n > 0))

/-- An entry the pipeline can process into a tileset: a regular file that
`tileset_read` accepts. -/
def processable (e : dirent_t) : Bool := e.d_type_reg && e.read_ok

lemma main_loop_error_of_count (entries : List dirent_t) (idx : Nat)
    (hidx : idx ≤ MAX_TILESETS)
    (hcount : MAX_TILESETS < idx + entries.countP processable) :
    main_loop entries idx = .error msg_max_files := by
  induction entries generalizing idx with
  | nil => simp at hcount; omega
  | cons e rest ih =>
    rw [List.countP_cons] at hcount
    by_cases h1 : MAX_TILESETS ≤ idx
    · rw [main_loop, if_pos h1]
    · rw [main_loop, if_neg (by omega)]
      by_cases h2 : e.d_type_reg
      · by_cases h3 : e.read_ok
        · have hp : processable e = true := by simp [processable, h2, h3]
          rw [hp] at hcount; simp at hcount
          rw [if_pos h2, if_pos h3]
          exact ih (idx + 1) (by omega) (by omega)
        · have hp : processable e = false := by simp [processable, h3]
          rw [hp] at hcount; simp at hcount
          rw [if_pos h2, if_neg h3]
          exact ih idx (by omega) (by omega)
      · have hp : processable e = false := by simp [processable, h2]
        rw [hp] at hcount; simp at hcount
        rw [if_neg h2]
        exact ih idx (by omega) (by omega)

lemma main_loop_error_count_ge (entries : List dirent_t) (idx : Nat) (msg : String)
    (h : main_loop entries idx = .error msg) :
    msg = msg_max_files ∧ MAX_TILESETS ≤ idx + entries.countP processable := by
  induction entries generalizing idx with
  | nil => rw [main_loop] at h; cases h
  | cons e rest ih =>
    rw [List.countP_cons]
    rw [main_loop] at h
    by_cases h1 : MAX_TILESETS ≤ idx
    · rw [if_pos h1] at h
      have : msg_max_files = msg := by
        cases h; rfl
      exact ⟨this.symm, by omega⟩
    · rw [if_neg (by omega)] at h
      by_cases h2 : e.d_type_reg
      · by_cases h3 : e.read_ok
        · rw [if_pos h2, if_pos h3] at h
          have hp : processable e = true := by simp [processable, h2, h3]
          obtain ⟨hmsg, hcnt⟩ := ih (idx + 1) h
          refine ⟨hmsg, ?_⟩
          rw [hp]; simp; omega
        · rw [if_pos h2, if_neg h3] at h
          have hp : processable e = false := by simp [processable, h3]
          obtain ⟨hmsg, hcnt⟩ := ih idx h
          refine ⟨hmsg, ?_⟩
          rw [hp]; simp; omega
      · rw [if_neg h2] at h
        have hp : processable e = false := by simp [processable, h2]
        obtain ⟨hmsg, hcnt⟩ := ih idx h
        refine ⟨hmsg, ?_⟩
        rw [hp]; simp; omega

lemma main_loop_replicate (n : Nat) (idx : Nat) (rest : List dirent_t)
    (h : idx + n ≤ MAX_TILESETS) :
    main_loop (List.replicate n ⟨true, true⟩ ++ rest) idx
      = main_loop rest (idx + n) := by
  induction n generalizing idx with
  | zero => simp
  | succ m ih =>
    rw [List.replicate_succ, List.cons_append, main_loop, if_neg (by omega)]
    simp only [show (⟨true, true⟩ : dirent_t).d_type_reg = true from rfl,
      show (⟨true, true⟩ : dirent_t).read_ok = true from rfl, if_true]
    rw [ih (idx + 1) (by omega)]
    congr 1
    omega

/-- C7: a batch with more processable source images than the catalog
capacity of 512 makes the scan abort with the capacity diagnostic and the
run exit with status 1 before any output file is written; conversely an
abort only ever happens after 512 images were successfully processed, so
per-image rejections alone never abort the run. -/
theorem capacity_overflow_aborts :
    (∀ entries : List dirent_t,
      MAX_TILESETS < entries.countP processable →
      main_loop entries 0 = .error msg_max_files ∧
      main_run entries = (1, false)) ∧
    (∀ (entries : List dirent_t) (msg : String),
      main_loop entries 0 = .error msg →
      msg = msg_max_files ∧ MAX_TILESETS ≤ entries.countP processable) := by
  constructor
  · intro entries h
    have h1 := main_loop_error_of_count entries 0 (by omega) (by omega)
    exact ⟨h1, by simp [main_run, h1]⟩
  · intro entries msg h
    have h1 := main_loop_error_count_ge entries 0 msg h
    simpa using h1

lemma countP_processable_replicate (n : Nat) :
    (List.replicate n (⟨true, true⟩ : dirent_t)).countP processable = n := by
  induction n with
  | zero => simp
  | succ m ih => simp [List.replicate_succ, List.countP_cons, processable, ih]

/-- Witness for C7: 513 processable entries overflow the 512-slot catalog. -/
theorem capacity_overflow_aborts_witness :
    MAX_TILESETS
      < (List.replicate 513 (⟨true, true⟩ : dirent_t)).countP processable ∧
    main_loop (List.replicate 513 (⟨true, true⟩ : dirent_t)) 0
      = .error msg_max_files ∧
    main_run (List.replicate 513 (⟨true, true⟩ : dirent_t)) = (1, false) := by
  have h : MAX_TILESETS
      < (List.replicate 513 (⟨true, true⟩ : dirent_t)).countP processable := by
    rw [countP_processable_replicate]
    norm_num [MAX_TILESETS]
  exact ⟨h, (capacity_overflow_aborts.1 _ h).1, (capacity_overflow_aborts.1 _ h).2⟩

/-- C10: once the catalog holds 512 tilesets, the very next directory entry
— whatever it is, regular file or not, acceptable or not — triggers the
fatal capacity error, because the capacity check precedes the
regular-file test; in particular 512 processed images followed by a
non-regular entry abort the run. -/
theorem capacity_check_precedes_type_check :
    (∀ (e : dirent_t) (rest : List dirent_t),
      main_loop (e :: rest) MAX_TILESETS = .error msg_max_files) ∧
    main_loop (List.replicate MAX_TILESETS ⟨true, true⟩ ++ [⟨false, false⟩]) 0
      = .error msg_max_files := by
  constructor
  · intro e rest
    rw [main_loop, if_pos (Nat.le_refl _)]
  · rw [main_loop_replicate MAX_TILESETS 0 [⟨false, false⟩] (by omega)]
    rw [main_loop, if_pos (by omega)]

end Tilesettool
